import Mathlib

set_option maxHeartbeats 1000000

namespace Sketch

/-! # Shallow embedding of GPMS/etch-a-sketch

The repository is a grid-painting widget.  `src/script.js` is the live
program; `src/unnamed/part_000` holds two earlier variants of the same
script.  The definitions below translate the relevant functions; JS number
arithmetic on the values reachable here is exact, so it is modelled over
`ℚ` (for the fractional color math) and `Int` (for coordinates and
channels). -/

/-- RGB color object `{r, g, b}` as used throughout script.js.  In every
reachable use the channels are integers, so they are modelled as `Int`. -/
structure RGB where
  r : Int
  g : Int
  b : Int
deriving DecidableEq

/-- `clamp(value, min, max)` from script.js:
`Math.min(Math.max(value, min), max)` (parameters renamed `lo`,`hi`). -/
def clamp (value lo hi : ℚ) : ℚ := min (max value lo) hi

/-- `increaseColorBrightness(color, percent)` from src/script.js (lines
43-53), the 256-based variant: each channel amount is `channel / 256`,
`percent` is divided by 100, and each output channel is
`Math.floor(clamp((amount + percent) * 256, 0, 256))`. -/
def increaseColorBrightness (color : RGB) (percent : ℚ) : RGB :=
  { r := ⌊clamp (((color.r : ℚ) / 256 + percent / 100) * 256) 0 256⌋
    g := ⌊clamp (((color.g : ℚ) / 256 + percent / 100) * 256) 0 256⌋
    b := ⌊clamp (((color.b : ℚ) / 256 + percent / 100) * 256) 0 256⌋ }

/-- `changeColorBrightness(color, percent)` from src/unnamed/part_000
(lines 204-214), the 255-based variant: identical shape with 255 in place
of 256. -/
def changeColorBrightness (color : RGB) (percent : ℚ) : RGB :=
  { r := ⌊clamp (((color.r : ℚ) / 255 + percent / 100) * 255) 0 255⌋
    g := ⌊clamp (((color.g : ℚ) / 255 + percent / 100) * 255) 0 255⌋
    b := ⌊clamp (((color.b : ℚ) / 255 + percent / 100) * 255) 0 255⌋ }

/-- The darken step exactly as the spec words it (§4.2 rule 2): per channel,
`newChannel = clamp(channel/255 + (-10/100), 0, 1) * 255`, floored to an
integer, clamped into `[0,255]`.  This definition follows the spec's words
and is compared against the source's `increaseColorBrightness` below. -/
def specDarkenChannel (c : Int) : Int :=
  max 0 (min 255 ⌊clamp ((c : ℚ) / 255 + (-10) / 100) 0 1 * 255⌋)

/-- `getRandomColor()` from src/script.js (lines 18-24): each channel is
`Math.floor(Math.random() * 256)`.  The three `Math.random()` samples in
`[0,1)` are passed as explicit arguments. -/
def getRandomColor (sr sg sb : ℚ) : RGB :=
  { r := ⌊sr * 256⌋, g := ⌊sg * 256⌋, b := ⌊sb * 256⌋ }

/-- The maximal runs of decimal digits of a character list, in order:
the matches of `matchAll` over the digit-run pattern used by
`rgbCSSColorToRGB`.  `cur` holds the digits of the run in progress,
most recent first. -/
def digitRunsAux : List Char → List Char → List String
  | [], cur => if cur.isEmpty then [] else [⟨cur.reverse⟩]
  | c :: rest, cur =>
    if c.isDigit then digitRunsAux rest (c :: cur)
    else if cur.isEmpty then digitRunsAux rest []
    else ⟨cur.reverse⟩ :: digitRunsAux rest []

def digitRuns (s : String) : List String := digitRunsAux s.data []

/-- JS `Number(...)` applied to a run of decimal digits. -/
def digitsToNat (cs : List Char) : Nat :=
  cs.foldl (fun acc c => acc * 10 + (c.toNat - 48)) 0

/-- Outcome of `rgbCSSColorToRGB` (src/script.js lines 60-70): `undef` is the
JS `undefined` returned for a falsy (empty) input; `err` is the TypeError
thrown when the string holds fewer than three digit runs, because
`colorValues[1][0]` (or `[2][0]`) then indexes `undefined`. -/
inductive ParseResult where
  | undef : ParseResult
  | ok : RGB → ParseResult
  | err : ParseResult
deriving DecidableEq

def rgbCSSColorToRGB (cssColor : String) : ParseResult :=
  if cssColor = "" then ParseResult.undef
  else
    match digitRuns cssColor with
    | v0 :: v1 :: v2 :: _ =>
        ParseResult.ok ⟨(digitsToNat v0.data : Int), (digitsToNat v1.data : Int),
          (digitsToNat v2.data : Int)⟩
    | _ => ParseResult.err

/-- The string assigned by `changeCellColor` in src/script.js (line 94): the
template writes the channels in the order `color.r`, `color.b`, `color.g`
(blue and green swapped). -/
def serializeCellColor (c : RGB) : String :=
  "rgb(" ++ toString c.r ++ "," ++ toString c.b ++ "," ++ toString c.g ++ ")"

/-- The color transition of `changeCellColor` (src/script.js lines 77-95) on
one cell's stored inline backgroundColor string, `""` being the unset state.
When the stored color is set and darken is unchecked, `color` is still the
string, so the template reads `.r`/`.b`/`.g` off a string and assigns
"rgb(undefined,undefined,undefined)"; per CSSOM an assignment that does not
parse as a color leaves the declaration unchanged, so the stored value
survives.  In the darken branch, a non-`ok` parse makes
`increaseColorBrightness` dereference `undefined`, a thrown TypeError,
modelled as `Except.error ()`. -/
def changeCellColorStep (stored : String) (randomChecked darkenChecked : Bool)
    (rand : RGB) : Except Unit String :=
  if stored = "" then
    Except.ok (serializeCellColor (if randomChecked then rand else ⟨240, 240, 240⟩))
  else if darkenChecked then
    match rgbCSSColorToRGB stored with
    | ParseResult.ok c0 =>
        Except.ok (serializeCellColor (increaseColorBrightness c0 (-10)))
    | _ => Except.error ()
  else
    Except.ok stored

/-- The acceptance test of the prompt loop in `resetCanvas` (src/script.js
lines 176-187): the JS loop repeats while
`!newDimension || newDimension > 100 || newDimension < 0`.
`Number(prompt(...))` is modelled as `Option ℚ`: `none` is NaN (non-numeric
input, falsy; both comparisons with NaN are false), `some q` a numeric value
(falsy exactly when it is 0). -/
def dimensionRejected (v : Option ℚ) : Bool :=
  match v with
  | none => true
  | some q => decide (q = 0) || decide (100 < q) || decide (q < 0)

/-- The re-prompt loop of `resetCanvas` over the successive prompted values:
it keeps prompting past every rejected value and returns the first accepted
one (`none` if the listed prompts run out, which the JS loop itself never
does). -/
def resetCanvasLoop : List (Option ℚ) → Option ℚ
  | [] => none
  | v :: rest => if dimensionRejected v then resetCanvasLoop rest else v

/-- The module state of script.js relevant to resetting: the grid dimension
and the global `prevPos` (`none` is JS `undefined`). -/
structure ScriptState where
  canvasDimension : ℚ
  prevPos : Option (Int × Int)
deriving DecidableEq

/-- `resetCanvas()` from src/script.js (lines 176-187), after its prompt loop
produced `newDimension`: it assigns `canvasDimension`, rewrites the CSS
custom property, clears the cell container and regenerates the cells.  No
statement of it writes `prevPos`. -/
def resetCanvas (st : ScriptState) (newDimension : ℚ) : ScriptState :=
  { canvasDimension := newDimension, prevPos := st.prevPos }

/-- The cell index computed by `changeCellColor` (src/script.js line 78):
`y * canvasDimension + Math.floor(x % canvasDimension)`.  JS `%` is the
truncating remainder, `Int.tmod`; `Math.floor` on an integer value is the
identity. -/
def cellIndex (x y dimension : Int) : Int :=
  y * dimension + Int.tmod x dimension

/-- Column attached to a cell by `generateCanvasCells` (src/script.js line
161): `Math.floor(index % canvasDimension)`. -/
def gridCellX (dimension index : Int) : Int := Int.tmod index dimension

/-- Row attached to a cell by `generateCanvasCells` (src/script.js line 162):
`Math.floor(index / canvasDimension)`, the floor of the real quotient,
which is `Int.fdiv`. -/
def gridCellY (dimension index : Int) : Int := Int.fdiv index dimension

/-- The loop of `plotLine` (src/script.js lines 113-135), Bresenham's line
algorithm.  The values fixed for the whole loop come first (`x1 y1 dx dy sx
sy`), then the mutable state (`x0 y0 error`).  Each iteration emits
`(x0, y0)` — the `changeCellColor` call — then breaks at the target, and
then runs the two sequential `if` blocks of the body; the four possible
combinations of the two block conditions (both on the same `e2 = 2*error`)
are spelled out as nested conditionals, and each inner `break` produces
`[]`.  The `while (true)` loop is modelled with fuel; `plotLine` below
passes enough fuel for the loop to finish on its own (every larger fuel
gives the same list, `C2_plotLine_loop_terminates`). -/
def bres (x1 y1 dx dy sx sy : Int) : Nat → Int → Int → Int → List (Int × Int)
  | 0, _, _, _ => []
  | fuel + 1, x0, y0, error =>
    (x0, y0) ::
      (if x0 = x1 ∧ y0 = y1 then []
       else if dy ≤ 2 * error then
         if x0 = x1 then []
         else if 2 * error ≤ dx then
           if y0 = y1 then []
           else bres x1 y1 dx dy sx sy fuel (x0 + sx) (y0 + sy) (error + dy + dx)
         else bres x1 y1 dx dy sx sy fuel (x0 + sx) y0 (error + dy)
       else if 2 * error ≤ dx then
         if y0 = y1 then []
         else bres x1 y1 dx dy sx sy fuel x0 (y0 + sy) (error + dx)
       else bres x1 y1 dx dy sx sy fuel x0 y0 error)

/-- `plotLine(x0, y0, x1, y1)` as the list of cells passed to
`changeCellColor`, in call order, with the source's
`dx = |x1-x0|`, `sx = x0 < x1 ? 1 : -1`, `dy = -|y1-y0|`,
`sy = y0 < y1 ? 1 : -1`, `error = dx + dy` spelled inline. -/
def plotLine (x0 y0 x1 y1 : Int) : List (Int × Int) :=
  bres x1 y1 |x1 - x0| (-|y1 - y0|) (if x0 < x1 then 1 else -1)
    (if y0 < y1 then 1 else -1) ((|x1 - x0| + |y1 - y0|).toNat + 1) x0 y0
    (|x1 - x0| + -|y1 - y0|)

/-- Two cells are 8-adjacent (or equal): they differ by at most 1 in each
axis. -/
def adj8 (p q : Int × Int) : Prop := |q.1 - p.1| ≤ 1 ∧ |q.2 - p.2| ≤ 1

/-- The run of `plotLine 0 0 dx0 dy0` with the fuel left explicit: the
origin-based instance every `plotLine` call reduces to by translation. -/
def bresFrom0 (dx0 dy0 : Int) (fuel : Nat) : List (Int × Int) :=
  bres dx0 dy0 |dx0| (-|dy0|) (if 0 < dx0 then 1 else -1)
    (if 0 < dy0 then 1 else -1) fuel 0 0 (|dx0| + -|dy0|)

/-! ## Channel arithmetic for the darken step at percent = -10 -/

theorem floorClamp256 (c : Int) (h0 : 0 ≤ c) (h1 : c ≤ 255) :
    ⌊clamp (((c : ℚ) / 256 + (-10) / 100) * 256) 0 256⌋ = max (c - 26) 0 := by
  have hv : ((c : ℚ) / 256 + (-10) / 100) * 256 = (c : ℚ) - 128 / 5 := by ring
  rw [hv]
  rcases le_or_lt c 25 with hc | hc
  · have hq : (c : ℚ) ≤ 25 := by exact_mod_cast hc
    have hcl : clamp ((c : ℚ) - 128 / 5) 0 256 = 0 := by
      rw [clamp, max_eq_right (by linarith)]
      exact min_eq_left (by norm_num)
    rw [hcl]
    have hm : max (c - 26) 0 = 0 := max_eq_right (by omega)
    simp [hm]
  · have hq : (26 : ℚ) ≤ (c : ℚ) := by exact_mod_cast hc
    have hq2 : (c : ℚ) ≤ 255 := by exact_mod_cast h1
    have hcl : clamp ((c : ℚ) - 128 / 5) 0 256 = (c : ℚ) - 128 / 5 := by
      rw [clamp, max_eq_left (by linarith)]
      exact min_eq_left (by linarith)
    rw [hcl]
    have hfl : ⌊(c : ℚ) - 128 / 5⌋ = c - 26 := by
      rw [Int.floor_eq_iff] <;> push_cast <;> constructor <;> linarith
    rw [hfl, max_eq_left (by omega)]

theorem floorClamp255 (c : Int) (h0 : 0 ≤ c) (h1 : c ≤ 255) :
    ⌊clamp (((c : ℚ) / 255 + (-10) / 100) * 255) 0 255⌋ = max (c - 26) 0 := by
  have hv : ((c : ℚ) / 255 + (-10) / 100) * 255 = (c : ℚ) - 51 / 2 := by ring
  rw [hv]
  rcases le_or_lt c 25 with hc | hc
  · have hq : (c : ℚ) ≤ 25 := by exact_mod_cast hc
    have hcl : clamp ((c : ℚ) - 51 / 2) 0 255 = 0 := by
      rw [clamp, max_eq_right (by linarith)]
      exact min_eq_left (by norm_num)
    rw [hcl]
    have hm : max (c - 26) 0 = 0 := max_eq_right (by omega)
    simp [hm]
  · have hq : (26 : ℚ) ≤ (c : ℚ) := by exact_mod_cast hc
    have hq2 : (c : ℚ) ≤ 255 := by exact_mod_cast h1
    have hcl : clamp ((c : ℚ) - 51 / 2) 0 255 = (c : ℚ) - 51 / 2 := by
      rw [clamp, max_eq_left (by linarith)]
      exact min_eq_left (by linarith)
    rw [hcl]
    have hfl : ⌊(c : ℚ) - 51 / 2⌋ = c - 26 := by
      rw [Int.floor_eq_iff] <;> push_cast <;> constructor <;> linarith
    rw [hfl, max_eq_left (by omega)]

theorem specDarkenChannel_eq (c : Int) (h0 : 0 ≤ c) (h1 : c ≤ 255) :
    specDarkenChannel c = max (c - 26) 0 := by
  rcases le_or_lt c 25 with hc | hc
  · have hq : (c : ℚ) ≤ 25 := by exact_mod_cast hc
    have hcl : clamp ((c : ℚ) / 255 + (-10) / 100) 0 1 = 0 := by
      rw [clamp, max_eq_right (by linarith)]
      exact min_eq_left (by norm_num)
    rw [specDarkenChannel, hcl]
    norm_num
    omega
  · have hq : (26 : ℚ) ≤ (c : ℚ) := by exact_mod_cast hc
    have hq2 : (c : ℚ) ≤ 255 := by exact_mod_cast h1
    have hcl : clamp ((c : ℚ) / 255 + (-10) / 100) 0 1 = (c : ℚ) / 255 + (-10) / 100 := by
      rw [clamp, max_eq_left (by linarith)]
      exact min_eq_left (by linarith)
    rw [specDarkenChannel, hcl]
    have hv : ((c : ℚ) / 255 + (-10) / 100) * 255 = (c : ℚ) - 51 / 2 := by ring
    rw [hv]
    have hfl : ⌊(c : ℚ) - 51 / 2⌋ = c - 26 := by
      rw [Int.floor_eq_iff] <;> push_cast <;> constructor <;> linarith
    rw [hfl]
    omega

theorem increaseColorBrightness_eq (c : RGB)
    (hr0 : 0 ≤ c.r) (hr1 : c.r ≤ 255) (hg0 : 0 ≤ c.g) (hg1 : c.g ≤ 255)
    (hb0 : 0 ≤ c.b) (hb1 : c.b ≤ 255) :
    increaseColorBrightness c (-10)
      = ⟨max (c.r - 26) 0, max (c.g - 26) 0, max (c.b - 26) 0⟩ := by
  rw [increaseColorBrightness, floorClamp256 c.r hr0 hr1, floorClamp256 c.g hg0 hg1,
    floorClamp256 c.b hb0 hb1]

theorem changeColorBrightness_eq (c : RGB)
    (hr0 : 0 ≤ c.r) (hr1 : c.r ≤ 255) (hg0 : 0 ≤ c.g) (hg1 : c.g ≤ 255)
    (hb0 : 0 ≤ c.b) (hb1 : c.b ≤ 255) :
    changeColorBrightness c (-10)
      = ⟨max (c.r - 26) 0, max (c.g - 26) 0, max (c.b - 26) 0⟩ := by
  rw [changeColorBrightness, floorClamp255 c.r hr0 hr1, floorClamp255 c.g hg0 hg1,
    floorClamp255 c.b hb0 hb1]

/-- C4: for every already-set color (integer channels in [0,255]), each
output channel of the script.js darken step equals the spec's formula
`floor(clamp(channel/255 + (-10/100), 0, 1) * 255)` clamped into [0,255];
in particular (200,200,200) darkens to (174,174,174) and (0,0,0) stays
(0,0,0). -/
theorem C4_darken_matches_spec_formula (c : RGB)
    (hr0 : 0 ≤ c.r) (hr1 : c.r ≤ 255) (hg0 : 0 ≤ c.g) (hg1 : c.g ≤ 255)
    (hb0 : 0 ≤ c.b) (hb1 : c.b ≤ 255) :
    increaseColorBrightness c (-10)
      = ⟨specDarkenChannel c.r, specDarkenChannel c.g, specDarkenChannel c.b⟩ ∧
    increaseColorBrightness ⟨200, 200, 200⟩ (-10) = ⟨174, 174, 174⟩ ∧
    increaseColorBrightness ⟨0, 0, 0⟩ (-10) = ⟨0, 0, 0⟩ := by
  refine ⟨?_, ?_, ?_⟩
  · rw [increaseColorBrightness_eq c hr0 hr1 hg0 hg1 hb0 hb1,
      specDarkenChannel_eq c.r hr0 hr1, specDarkenChannel_eq c.g hg0 hg1,
      specDarkenChannel_eq c.b hb0 hb1]
  · rw [increaseColorBrightness_eq ⟨200, 200, 200⟩ (by decide) (by decide) (by decide)
      (by decide) (by decide) (by decide)]
    decide
  · rw [increaseColorBrightness_eq ⟨0, 0, 0⟩ (by decide) (by decide) (by decide)
      (by decide) (by decide) (by decide)]
    decide

theorem C4_darken_matches_spec_formula_witness :
    (0 : Int) ≤ 100 ∧
    increaseColorBrightness ⟨100, 150, 200⟩ (-10)
      = ⟨specDarkenChannel 100, specDarkenChannel 150, specDarkenChannel 200⟩ :=
  ⟨by omega,
    (C4_darken_matches_spec_formula ⟨100, 150, 200⟩ (by decide) (by decide) (by decide)
      (by decide) (by decide) (by decide)).1⟩

/-- C9: on integer channels in [0,255] at percent = -10, the 256-based
`increaseColorBrightness` of script.js and the 255-based
`changeColorBrightness` of the part_000 variant agree, each output channel
being `max(channel - 26, 0)`. -/
theorem C9_brightness_variants_agree (c : RGB)
    (hr0 : 0 ≤ c.r) (hr1 : c.r ≤ 255) (hg0 : 0 ≤ c.g) (hg1 : c.g ≤ 255)
    (hb0 : 0 ≤ c.b) (hb1 : c.b ≤ 255) :
    increaseColorBrightness c (-10) = changeColorBrightness c (-10) ∧
    increaseColorBrightness c (-10)
      = ⟨max (c.r - 26) 0, max (c.g - 26) 0, max (c.b - 26) 0⟩ := by
  rw [increaseColorBrightness_eq c hr0 hr1 hg0 hg1 hb0 hb1,
    changeColorBrightness_eq c hr0 hr1 hg0 hg1 hb0 hb1]
  exact ⟨rfl, rfl⟩

theorem C9_brightness_variants_agree_witness :
    increaseColorBrightness ⟨100, 150, 200⟩ (-10)
      = changeColorBrightness ⟨100, 150, 200⟩ (-10) ∧
    increaseColorBrightness ⟨100, 150, 200⟩ (-10) = ⟨74, 124, 174⟩ :=
  ⟨(C9_brightness_variants_agree ⟨100, 150, 200⟩ (by decide) (by decide) (by decide)
      (by decide) (by decide) (by decide)).1,
    by
      rw [(C9_brightness_variants_agree ⟨100, 150, 200⟩ (by decide) (by decide) (by decide)
        (by decide) (by decide) (by decide)).2]
      decide⟩

/-! ## Random color (C5) -/

theorem randChannel_bounds (s : ℚ) (h0 : 0 ≤ s) (h1 : s < 1) :
    0 ≤ ⌊s * 256⌋ ∧ ⌊s * 256⌋ ≤ 255 := by
  constructor
  · exact Int.floor_nonneg.2 (by nlinarith)
  · have h : ⌊s * 256⌋ < 256 := Int.floor_lt.2 (by push_cast; nlinarith)
    omega

theorem randChannel_eq_iff (s : ℚ) (v : Int) :
    ⌊s * 256⌋ = v ↔ (v : ℚ) / 256 ≤ s ∧ s < ((v : ℚ) + 1) / 256 := by
  rw [Int.floor_eq_iff]
  constructor
  · rintro ⟨h1, h2⟩
    constructor
    · linarith
    · linarith
  · rintro ⟨h1, h2⟩
    constructor
    · linarith
    · linarith

/-- C5: with each Math.random() sample in [0,1), every channel of
getRandomColor is an integer in [0,255]; every value in [0,255] is
attainable; and each channel is uniform, its preimage on any value v being
exactly the sample interval [v/256, (v+1)/256) of constant length 1/256,
each channel depending only on its own sample. -/
theorem C5_random_color_uniform (sr sg sb : ℚ)
    (hr0 : 0 ≤ sr) (hr1 : sr < 1) (hg0 : 0 ≤ sg) (hg1 : sg < 1)
    (hb0 : 0 ≤ sb) (hb1 : sb < 1) :
    (0 ≤ (getRandomColor sr sg sb).r ∧ (getRandomColor sr sg sb).r ≤ 255) ∧
    (0 ≤ (getRandomColor sr sg sb).g ∧ (getRandomColor sr sg sb).g ≤ 255) ∧
    (0 ≤ (getRandomColor sr sg sb).b ∧ (getRandomColor sr sg sb).b ≤ 255) ∧
    (∀ v : Int, 0 ≤ v → v ≤ 255 →
      ∃ s : ℚ, 0 ≤ s ∧ s < 1 ∧ getRandomColor s s s = ⟨v, v, v⟩) ∧
    (∀ v : Int,
      ((getRandomColor sr sg sb).r = v ↔ (v : ℚ) / 256 ≤ sr ∧ sr < ((v : ℚ) + 1) / 256) ∧
      ((getRandomColor sr sg sb).g = v ↔ (v : ℚ) / 256 ≤ sg ∧ sg < ((v : ℚ) + 1) / 256) ∧
      ((getRandomColor sr sg sb).b = v ↔ (v : ℚ) / 256 ≤ sb ∧ sb < ((v : ℚ) + 1) / 256)) := by
  refine ⟨randChannel_bounds sr hr0 hr1, randChannel_bounds sg hg0 hg1,
    randChannel_bounds sb hb0 hb1, ?_, fun v =>
      ⟨randChannel_eq_iff sr v, randChannel_eq_iff sg v, randChannel_eq_iff sb v⟩⟩
  intro v hv0 hv1
  refine ⟨(v : ℚ) / 256, by positivity, ?_, ?_⟩
  · rw [div_lt_one (by norm_num)]
    exact_mod_cast lt_of_le_of_lt hv1 (by norm_num)
  · have hs : ((v : ℚ) / 256) * 256 = (v : ℚ) := by ring
    show RGB.mk _ _ _ = _
    rw [hs, Int.floor_intCast]

theorem C5_random_color_uniform_witness :
    (0 ≤ (getRandomColor 0 (1 / 2) (255 / 256)).r ∧
      (getRandomColor 0 (1 / 2) (255 / 256)).r ≤ 255) ∧
    ((getRandomColor 0 (1 / 2) (255 / 256)).g = 128 ↔
      (128 : ℚ) / 256 ≤ 1 / 2 ∧ (1 : ℚ) / 2 < (128 + 1) / 256) :=
  ⟨(C5_random_color_uniform 0 (1 / 2) (255 / 256) (by norm_num) (by norm_num)
      (by norm_num) (by norm_num) (by norm_num) (by norm_num)).1,
    ((C5_random_color_uniform 0 (1 / 2) (255 / 256) (by norm_num) (by norm_num)
      (by norm_num) (by norm_num) (by norm_num) (by norm_num)).2.2.2.2 128).2.1⟩

/-! ## Re-painting without darken is a no-op (C3) -/

/-- C3: if a cell's color is already set (its stored string is non-empty) and
darken is off (Plain or Random mode), changeCellColor leaves the stored color
unchanged: the template serializes a string's undefined .r/.b/.g fields, and
the resulting invalid assignment is dropped by the style engine. -/
theorem C3_repaint_nondarken_noop (stored : String) (randomChecked : Bool)
    (rand : RGB) (h : stored ≠ "") :
    changeCellColorStep stored randomChecked false rand = Except.ok stored := by
  simp only [changeCellColorStep, if_neg h]
  rfl

theorem C3_repaint_nondarken_noop_witness :
    "rgb(100,150,200)" ≠ "" ∧
    changeCellColorStep "rgb(100,150,200)" false false ⟨0, 0, 0⟩
      = Except.ok "rgb(100,150,200)" :=
  ⟨by decide, C3_repaint_nondarken_noop "rgb(100,150,200)" false ⟨0, 0, 0⟩ (by decide)⟩

/-! ## Malformed color strings and the darken branch (C6) -/

theorem rgbCSSColorToRGB_err (s : String) (hs : s ≠ "")
    (h : (digitRuns s).length < 3) : rgbCSSColorToRGB s = ParseResult.err := by
  rw [rgbCSSColorToRGB, if_neg hs]
  rcases hl : digitRuns s with _ | ⟨a, _ | ⟨b, _ | ⟨c, t⟩⟩⟩
  · rfl
  · rfl
  · rfl
  · rw [hl] at h
    simp at h
    omega

/-- C6 counterexample: the non-empty color string "black" (exactly what the
part_000 variant stores) holds no digit run, so with darken on the parse
dereferences undefined and a TypeError escapes the color step; it is not
treated as unset (the default-color path is not taken). -/
theorem C6_fault_counterexample :
    rgbCSSColorToRGB "black" = ParseResult.err ∧
    changeCellColorStep "black" false true ⟨0, 0, 0⟩ = Except.error () ∧
    changeCellColorStep "black" false true ⟨0, 0, 0⟩
      ≠ Except.ok (serializeCellColor ⟨240, 240, 240⟩) := by
  have h2 : changeCellColorStep "black" false true ⟨0, 0, 0⟩ = Except.error () := rfl
  refine ⟨rfl, h2, ?_⟩
  rw [h2]
  intro h
  exact Except.noConfusion h

/-- C6 as amended: a missing (empty, falsy) color string is treated as unset
and takes the default-color path; but a non-empty string holding fewer than
three digit runs is not — with darken on, the parse throws and the fault
escapes the color step. -/
theorem C6_missing_unset_malformed_throws (s : String) (randomChecked : Bool)
    (rand : RGB) :
    (s = "" → ∀ darkenChecked,
      changeCellColorStep s randomChecked darkenChecked rand
        = Except.ok (serializeCellColor
            (if randomChecked then rand else ⟨240, 240, 240⟩))) ∧
    (s ≠ "" → (digitRuns s).length < 3 →
      changeCellColorStep s randomChecked true rand = Except.error ()) := by
  constructor
  · intro hs dk
    subst hs
    rfl
  · intro hs hlen
    have herr := rgbCSSColorToRGB_err s hs hlen
    simp [changeCellColorStep, if_neg hs, herr]

theorem C6_missing_unset_malformed_throws_witness :
    changeCellColorStep "" true false ⟨7, 8, 9⟩
      = Except.ok (serializeCellColor ⟨7, 8, 9⟩) ∧
    changeCellColorStep "black" false true ⟨7, 8, 9⟩ = Except.error () := by
  constructor
  · have h := (C6_missing_unset_malformed_throws "" true ⟨7, 8, 9⟩).1 rfl false
    simpa using h
  · exact (C6_missing_unset_malformed_throws "black" false ⟨7, 8, 9⟩).2
      (by decide) (by decide)

/-! ## The dimension validator (C7) -/

/-- C7 counterexample: the validator accepts 50.5 (Number("50.5")), which is
not an integer — so "accepts iff integer in (0,100]" fails as stated. -/
theorem C7_accepts_noninteger_counterexample :
    dimensionRejected (some (101 / 2)) = false ∧
    ¬ ∃ n : Int, ((101 : ℚ) / 2) = (n : ℚ) := by
  constructor
  · simp only [dimensionRejected, Bool.or_eq_false_iff, decide_eq_false_iff_not]
    norm_num
  · rintro ⟨n, hn⟩
    rw [div_eq_iff (by norm_num : (2 : ℚ) ≠ 0)] at hn
    have h : (101 : Int) = n * 2 := by exact_mod_cast hn
    omega

/-- C7 as amended: the validator accepts a prompted value iff it is a numeric
value in (0,100] — integrality is not checked; it rejects 0, 101 and
non-numeric input, accepts 1 and 100, and the loop re-prompts past every
rejected value with no bound on retries. -/
theorem C7_validator_accepts_iff (q : ℚ) (rs : List (Option ℚ)) :
    (dimensionRejected (some q) = false ↔ 0 < q ∧ q ≤ 100) ∧
    dimensionRejected none = true ∧
    dimensionRejected (some 0) = true ∧
    dimensionRejected (some 101) = true ∧
    dimensionRejected (some 1) = false ∧
    dimensionRejected (some 100) = false ∧
    ((∀ v ∈ rs, dimensionRejected v = true) →
      ∀ rest, resetCanvasLoop (rs ++ rest) = resetCanvasLoop rest) := by
  refine ⟨?_, rfl, by decide, by decide, by decide, by decide, ?_⟩
  · simp only [dimensionRejected, Bool.or_eq_false_iff, decide_eq_false_iff_not, not_lt]
    constructor
    · rintro ⟨⟨h1, h2⟩, h3⟩
      exact ⟨lt_of_le_of_ne h3 (Ne.symm h1), h2⟩
    · rintro ⟨h1, h2⟩
      exact ⟨⟨ne_of_gt h1, h2⟩, le_of_lt h1⟩
  · induction rs with
    | nil => intro _ rest; rfl
    | cons v t ih =>
      intro hrej rest
      have hv : dimensionRejected v = true := hrej v (List.mem_cons_self v t)
      have ht := ih fun u hu => hrej u (List.mem_cons_of_mem v hu)
      simp only [List.cons_append, resetCanvasLoop, hv, if_true]
      exact ht rest

theorem C7_validator_accepts_iff_witness :
    (dimensionRejected (some 16) = false ↔ (0 : ℚ) < 16 ∧ (16 : ℚ) ≤ 100) ∧
    resetCanvasLoop ([none, some 0, some 101] ++ [some 16])
      = resetCanvasLoop [some 16] :=
  ⟨(C7_validator_accepts_iff 16 []).1,
    (C7_validator_accepts_iff 16 [none, some 0, some 101]).2.2.2.2.2.2
      (by intro v hv; fin_cases hv <;> decide) [some 16]⟩

/-! ## Reset does not clear the pointer position (C8) -/

/-- C8 evaluated at the failing input: with a stale prevPos of (15,15) and a
reset to dimension 4, script.js's resetCanvas completes the rebuild with
prevPos still (15,15), not cleared to none (the part_000 variant, by
contrast, restarts painting with a fresh unset prevPos). -/
theorem C8_reset_keeps_prevPos :
    resetCanvas ⟨16, some (15, 15)⟩ 4 = ⟨4, some (15, 15)⟩ ∧
    (resetCanvas ⟨16, some (15, 15)⟩ 4).prevPos ≠ none ∧
    (∀ st d, (resetCanvas st d).prevPos = st.prevPos) := by
  refine ⟨rfl, ?_, fun st d => rfl⟩
  simp [resetCanvas]

/-! ## Cell addressing (C10) -/

/-- C10: for a row y in [0,dimension) and any non-negative x, changeCellColor
addresses row-major index y*dimension + (x mod dimension); a valid x lands
exactly on cell (x,y) of the generated grid, and an out-of-range x silently
wraps to column x mod dimension of the same row. -/
theorem C10_cell_index_wraps (x y d : Int)
    (hd : 0 < d) (hy0 : 0 ≤ y) (hy1 : y < d) (hx0 : 0 ≤ x) :
    cellIndex x y d = y * d + x % d ∧
    gridCellY d (cellIndex x y d) = y ∧
    gridCellX d (cellIndex x y d) = x % d ∧
    (x < d → cellIndex x y d = y * d + x ∧ gridCellX d (cellIndex x y d) = x) := by
  have hmod : Int.tmod x d = x % d := Int.tmod_eq_emod hx0 (le_of_lt hd)
  have hr0 : 0 ≤ x % d := Int.emod_nonneg x (ne_of_gt hd)
  have hr1 : x % d < d := Int.emod_lt_of_pos x hd
  have hidx : cellIndex x y d = y * d + x % d := by rw [cellIndex, hmod]
  have hidx' : cellIndex x y d = x % d + d * y := by rw [hidx]; ring
  have hnn : 0 ≤ x % d + d * y := by positivity
  refine ⟨hidx, ?_, ?_, ?_⟩
  · rw [gridCellY, hidx', Int.fdiv_eq_ediv _ (le_of_lt hd),
      Int.add_mul_ediv_left _ _ (ne_of_gt hd), Int.ediv_eq_zero_of_lt hr0 hr1,
      Int.zero_add]
  · rw [gridCellX, hidx', Int.tmod_eq_emod hnn (le_of_lt hd),
      Int.add_mul_emod_self_left, Int.emod_eq_of_lt hr0 hr1]
  · intro hxd
    have hx : x % d = x := Int.emod_eq_of_lt hx0 hxd
    constructor
    · rw [hidx, hx]
    · rw [gridCellX, hidx', Int.tmod_eq_emod hnn (le_of_lt hd),
        Int.add_mul_emod_self_left, Int.emod_eq_of_lt hr0 hr1, hx]

theorem C10_cell_index_wraps_witness :
    cellIndex 20 2 16 = 2 * 16 + 20 % 16 ∧
    gridCellX 16 (cellIndex 20 2 16) = 4 ∧ gridCellY 16 (cellIndex 20 2 16) = 2 := by
  have h := C10_cell_index_wraps 20 2 16 (by decide) (by decide) (by decide) (by decide)
  exact ⟨h.1, by rw [h.2.2.1]; decide, by rw [h.2.1]⟩

/-! ## The rasterizer loop: unfolding and symmetries -/

theorem bres_succ (x1 y1 dx dy sx sy : Int) (fuel : Nat) (x0 y0 error : Int) :
    bres x1 y1 dx dy sx sy (fuel + 1) x0 y0 error
      = (x0, y0) ::
        (if x0 = x1 ∧ y0 = y1 then []
         else if dy ≤ 2 * error then
           if x0 = x1 then []
           else if 2 * error ≤ dx then
             if y0 = y1 then []
             else bres x1 y1 dx dy sx sy fuel (x0 + sx) (y0 + sy) (error + dy + dx)
           else bres x1 y1 dx dy sx sy fuel (x0 + sx) y0 (error + dy)
         else if 2 * error ≤ dx then
           if y0 = y1 then []
           else bres x1 y1 dx dy sx sy fuel x0 (y0 + sy) (error + dx)
         else bres x1 y1 dx dy sx sy fuel x0 y0 error) := rfl

theorem bres_translate (x1 y1 dx dy sx sy tx ty : Int) :
    ∀ (fuel : Nat) (x0 y0 error : Int),
      bres (x1 + tx) (y1 + ty) dx dy sx sy fuel (x0 + tx) (y0 + ty) error
        = (bres x1 y1 dx dy sx sy fuel x0 y0 error).map
            (fun p => (p.1 + tx, p.2 + ty)) := by
  intro fuel
  induction fuel with
  | zero => intro x0 y0 error; rfl
  | succ n ih =>
    intro x0 y0 error
    rw [bres_succ, bres_succ]
    simp only [List.map_cons, add_left_inj]
    congr 1
    split_ifs <;>
      first
        | rfl
        | exact ih _ _ _
        | (rw [show x0 + tx + sx = x0 + sx + tx from by ring,
            show y0 + ty + sy = y0 + sy + ty from by ring]
           exact ih _ _ _)
        | (rw [show x0 + tx + sx = x0 + sx + tx from by ring]
           exact ih _ _ _)
        | (rw [show y0 + ty + sy = y0 + sy + ty from by ring]
           exact ih _ _ _)

theorem bres_negx (x1 y1 dx dy sx sy : Int) :
    ∀ (fuel : Nat) (x0 y0 error : Int),
      bres (-x1) y1 dx dy (-sx) sy fuel (-x0) y0 error
        = (bres x1 y1 dx dy sx sy fuel x0 y0 error).map
            (fun p => (-p.1, p.2)) := by
  intro fuel
  induction fuel with
  | zero => intro x0 y0 error; rfl
  | succ n ih =>
    intro x0 y0 error
    rw [bres_succ, bres_succ]
    simp only [List.map_cons, neg_inj]
    congr 1
    split_ifs <;>
      first
        | rfl
        | exact ih _ _ _
        | (rw [show -x0 + -sx = -(x0 + sx) from by ring]
           exact ih _ _ _)

theorem bres_negy (x1 y1 dx dy sx sy : Int) :
    ∀ (fuel : Nat) (x0 y0 error : Int),
      bres x1 (-y1) dx dy sx (-sy) fuel x0 (-y0) error
        = (bres x1 y1 dx dy sx sy fuel x0 y0 error).map
            (fun p => (p.1, -p.2)) := by
  intro fuel
  induction fuel with
  | zero => intro x0 y0 error; rfl
  | succ n ih =>
    intro x0 y0 error
    rw [bres_succ, bres_succ]
    simp only [List.map_cons, neg_inj]
    congr 1
    split_ifs <;>
      first
        | rfl
        | exact ih _ _ _
        | (rw [show -y0 + -sy = -(y0 + sy) from by ring]
           exact ih _ _ _)

/-! ## The rasterizer loop: the two dominant-axis runs

For a run toward `(D, E)` that starts on the origin side, the loop state
`(i, j, error)` always satisfies `error = D*(1+j) - E*(1+i)`.  Writing
`u = 2*(D*j - E*i)` (so `2*error = u + 2*D - 2*E`), the x-dominant case
`E ≤ D` keeps the invariant `-D < u`, which forces the x branch to step on
every iteration, forbids both early breaks, and makes the run end exactly
on `(D, E)` after `D` steps.  The y-dominant case is the mirror image with
invariant `u < E`. -/

theorem bres_xdom (D E sy : Int) (hD : 0 < D) (hE : 0 ≤ E) (hED : E ≤ D)
    (hsy : 0 < E → sy = 1) :
    ∀ (k : Nat) (i j error : Int), i + (k : Int) = D → 0 ≤ i → 0 ≤ j → j ≤ E →
      error = D * (1 + j) - E * (1 + i) → -D < 2 * (D * j - E * i) →
      ∀ fuel : Nat, k < fuel →
        bres D E D (-E) 1 sy fuel i j error
            = bres D E D (-E) 1 sy (k + 1) i j error ∧
        (bres D E D (-E) 1 sy (k + 1) i j error).head? = some (i, j) ∧
        (bres D E D (-E) 1 sy (k + 1) i j error).getLast? = some (D, E) ∧
        (bres D E D (-E) 1 sy (k + 1) i j error).length = k + 1 ∧
        List.Chain'
          (fun p q : Int × Int => q.1 = p.1 + 1 ∧ (q.2 = p.2 ∨ q.2 = p.2 + 1))
          (bres D E D (-E) 1 sy (k + 1) i j error) := by
  intro k
  induction k with
  | zero =>
    intro i j error hik hi0 hj0 hjE herr hu fuel hfuel
    have hiD : i = D := by simpa using hik
    have hjE' : j = E := by
      rcases eq_or_lt_of_le hjE with h | h
      · exact h
      · exfalso
        have h4 : D * j ≤ D * (E - 1) :=
          mul_le_mul_of_nonneg_left (by omega) (le_of_lt hD)
        have h5 : 2 * (D * j - E * i) ≤ -2 * D := by
          rw [hiD]; nlinarith [h4]
        linarith
    subst hiD
    subst hjE'
    obtain ⟨m, rfl⟩ : ∃ m, fuel = m + 1 := ⟨fuel - 1, by omega⟩
    rw [bres_succ, bres_succ]
    simp
  | succ k ih =>
    intro i j error hik hi0 hj0 hjE herr hu fuel hfuel
    have hiD : i < D := by
      have : i + ((k : Int) + 1) = D := by push_cast at hik ⊢; omega
      omega
    have hnt : ¬ (i = D ∧ j = E) := fun h => absurd h.1 (by omega)
    have h2e : 2 * error = 2 * (D * j - E * i) + 2 * D - 2 * E := by
      rw [herr]; ring
    have hxcond : -E ≤ 2 * error := by linarith
    have hxne : i ≠ D := by omega
    have hik' : (i + 1) + (k : Int) = D := by push_cast at hik ⊢; omega
    obtain ⟨m, rfl⟩ : ∃ m, fuel = m + 1 := ⟨fuel - 1, by omega⟩
    have hkm : k < m := by omega
    by_cases hy : 2 * error ≤ D
    · -- both branches step
      have hjE2 : j ≠ E := by
        intro hj
        have h1 : 2 * (D * j - E * i) ≤ 2 * E - D := by linarith
        have h2 : (2 * E) * 1 ≤ (2 * E) * (D - i) :=
          mul_le_mul_of_nonneg_left (by omega) (by linarith)
        have h3 : 2 * (D * j - E * i) = (2 * E) * (D - i) := by rw [hj]; ring
        linarith
      have hE0 : 0 < E := by omega
      have hsy1 : sy = 1 := hsy hE0
      subst hsy1
      have herr' : error + -E + D = D * (1 + (j + 1)) - E * (1 + (i + 1)) := by
        rw [herr]; ring
      have hu' : -D < 2 * (D * (j + 1) - E * (i + 1)) := by nlinarith [hu]
      have ihm := ih (i + 1) (j + 1) (error + -E + D) hik' (by omega) (by omega)
        (by omega) herr' hu'
      have step1 := ihm m hkm
      have step2 := ihm (k + 1) (by omega)
      rw [bres_succ, bres_succ]
      simp only [if_neg hnt, if_pos hxcond, if_neg hxne, if_pos hy, if_neg hjE2]
      rw [step1.1]
      refine ⟨rfl, rfl, ?_, ?_, ?_⟩
      · obtain ⟨c, t, hT⟩ : ∃ c t,
            bres D E D (-E) 1 1 (k + 1) (i + 1) (j + 1) (error + -E + D) = c :: t := by
          rcases hT : bres D E D (-E) 1 1 (k + 1) (i + 1) (j + 1) (error + -E + D) with
            _ | ⟨c, t⟩
          · rw [hT] at step2; simp at step2
          · exact ⟨c, t, rfl⟩
        rw [hT, List.getLast?_cons_cons, ← hT]
        exact step2.2.2.1
      · simp only [List.length_cons, step2.2.2.2.1]
      · refine List.chain'_cons'.2 ⟨?_, step2.2.2.2.2⟩
        intro b hb
        rw [step2.2.1] at hb
        simp only [Option.mem_def, Option.some_inj] at hb
        subst hb
        exact ⟨rfl, Or.inr rfl⟩
    · -- only the x branch steps
      have herr' : error + -E = D * (1 + j) - E * (1 + (i + 1)) := by
        rw [herr]; ring
      have hu' : -D < 2 * (D * j - E * (i + 1)) := by nlinarith [h2e, hy]
      have ihm := ih (i + 1) j (error + -E) hik' (by omega) hj0 hjE herr' hu'
      have step1 := ihm m hkm
      have step2 := ihm (k + 1) (by omega)
      rw [bres_succ, bres_succ]
      simp only [if_neg hnt, if_pos hxcond, if_neg hxne, if_neg hy]
      rw [step1.1]
      refine ⟨rfl, rfl, ?_, ?_, ?_⟩
      · obtain ⟨c, t, hT⟩ : ∃ c t,
            bres D E D (-E) 1 sy (k + 1) (i + 1) j (error + -E) = c :: t := by
          rcases hT : bres D E D (-E) 1 sy (k + 1) (i + 1) j (error + -E) with
            _ | ⟨c, t⟩
          · rw [hT] at step2; simp at step2
          · exact ⟨c, t, rfl⟩
        rw [hT, List.getLast?_cons_cons, ← hT]
        exact step2.2.2.1
      · simp only [List.length_cons, step2.2.2.2.1]
      · refine List.chain'_cons'.2 ⟨?_, step2.2.2.2.2⟩
        intro b hb
        rw [step2.2.1] at hb
        simp only [Option.mem_def, Option.some_inj] at hb
        subst hb
        exact ⟨rfl, Or.inl rfl⟩

theorem bres_ydom (D E sx : Int) (hE : 0 < E) (hD : 0 ≤ D) (hDE : D ≤ E)
    (hsx : 0 < D → sx = 1) :
    ∀ (k : Nat) (i j error : Int), j + (k : Int) = E → 0 ≤ j → 0 ≤ i → i ≤ D →
      error = D * (1 + j) - E * (1 + i) → 2 * (D * j - E * i) < E →
      ∀ fuel : Nat, k < fuel →
        bres D E D (-E) sx 1 fuel i j error
            = bres D E D (-E) sx 1 (k + 1) i j error ∧
        (bres D E D (-E) sx 1 (k + 1) i j error).head? = some (i, j) ∧
        (bres D E D (-E) sx 1 (k + 1) i j error).getLast? = some (D, E) ∧
        (bres D E D (-E) sx 1 (k + 1) i j error).length = k + 1 ∧
        List.Chain'
          (fun p q : Int × Int => q.2 = p.2 + 1 ∧ (q.1 = p.1 ∨ q.1 = p.1 + 1))
          (bres D E D (-E) sx 1 (k + 1) i j error) := by
  intro k
  induction k with
  | zero =>
    intro i j error hjk hj0 hi0 hiD herr hu fuel hfuel
    have hjE : j = E := by simpa using hjk
    have hiD' : i = D := by
      rcases eq_or_lt_of_le hiD with h | h
      · exact h
      · exfalso
        have h2 : (2 * E) * 1 ≤ (2 * E) * (D - i) :=
          mul_le_mul_of_nonneg_left (by omega) (by omega)
        have h3 : 2 * (D * j - E * i) = (2 * E) * (D - i) := by rw [hjE]; ring
        linarith
    subst hiD'
    subst hjE
    obtain ⟨m, rfl⟩ : ∃ m, fuel = m + 1 := ⟨fuel - 1, by omega⟩
    rw [bres_succ, bres_succ]
    simp
  | succ k ih =>
    intro i j error hjk hj0 hi0 hiD herr hu fuel hfuel
    have hjE : j < E := by
      have : j + ((k : Int) + 1) = E := by push_cast at hjk ⊢; omega
      omega
    have hnt : ¬ (i = D ∧ j = E) := fun h => absurd h.2 (by omega)
    have h2e : 2 * error = 2 * (D * j - E * i) + 2 * D - 2 * E := by
      rw [herr]; ring
    have hycond : 2 * error ≤ D := by linarith
    have hjne : j ≠ E := by omega
    have hjk' : (j + 1) + (k : Int) = E := by push_cast at hjk ⊢; omega
    obtain ⟨m, rfl⟩ : ∃ m, fuel = m + 1 := ⟨fuel - 1, by omega⟩
    have hkm : k < m := by omega
    by_cases hx : -E ≤ 2 * error
    · -- both branches step
      have hiD2 : i ≠ D := by
        intro hi
        have h2 : (2 * D) * 1 ≤ (2 * D) * (E - j) :=
          mul_le_mul_of_nonneg_left (by omega) (by omega)
        have h3 : 2 * (D * j - E * i) = -((2 * D) * (E - j)) := by rw [hi]; ring
        linarith
      have hD0 : 0 < D := by
        rcases eq_or_lt_of_le hD with h0 | h0
        · exfalso
          have h4 : 2 * (D * j - E * i) = 2 * D * j - 2 * E * i := by ring
          have h5 : 0 ≤ 2 * E * i := by positivity
          nlinarith [h2e, hx]
        · exact h0
      have hsx1 : sx = 1 := hsx hD0
      subst hsx1
      have herr' : error + -E + D = D * (1 + (j + 1)) - E * (1 + (i + 1)) := by
        rw [herr]; ring
      have hu' : 2 * (D * (j + 1) - E * (i + 1)) < E := by nlinarith [hu]
      have ihm := ih (i + 1) (j + 1) (error + -E + D) hjk' (by omega) (by omega)
        (by omega) herr' hu'
      have step1 := ihm m hkm
      have step2 := ihm (k + 1) (by omega)
      rw [bres_succ, bres_succ]
      simp only [if_neg hnt, if_pos hx, if_neg hiD2, if_pos hycond, if_neg hjne]
      rw [step1.1]
      refine ⟨rfl, rfl, ?_, ?_, ?_⟩
      · obtain ⟨c, t, hT⟩ : ∃ c t,
            bres D E D (-E) 1 1 (k + 1) (i + 1) (j + 1) (error + -E + D) = c :: t := by
          rcases hT : bres D E D (-E) 1 1 (k + 1) (i + 1) (j + 1) (error + -E + D) with
            _ | ⟨c, t⟩
          · rw [hT] at step2; simp at step2
          · exact ⟨c, t, rfl⟩
        rw [hT, List.getLast?_cons_cons, ← hT]
        exact step2.2.2.1
      · simp only [List.length_cons, step2.2.2.2.1]
      · refine List.chain'_cons'.2 ⟨?_, step2.2.2.2.2⟩
        intro b hb
        rw [step2.2.1] at hb
        simp only [Option.mem_def, Option.some_inj] at hb
        subst hb
        exact ⟨rfl, Or.inr rfl⟩
    · -- only the y branch steps
      have herr' : error + D = D * (1 + (j + 1)) - E * (1 + i) := by
        rw [herr]; ring
      have hu' : 2 * (D * (j + 1) - E * i) < E := by nlinarith [h2e, hx]
      have ihm := ih i (j + 1) (error + D) hjk' (by omega) hi0 hiD herr' hu'
      have step1 := ihm m hkm
      have step2 := ihm (k + 1) (by omega)
      rw [bres_succ, bres_succ]
      simp only [if_neg hnt, if_neg hx, if_pos hycond, if_neg hjne]
      rw [step1.1]
      refine ⟨rfl, rfl, ?_, ?_, ?_⟩
      · obtain ⟨c, t, hT⟩ : ∃ c t,
            bres D E D (-E) sx 1 (k + 1) i (j + 1) (error + D) = c :: t := by
          rcases hT : bres D E D (-E) sx 1 (k + 1) i (j + 1) (error + D) with
            _ | ⟨c, t⟩
          · rw [hT] at step2; simp at step2
          · exact ⟨c, t, rfl⟩
        rw [hT, List.getLast?_cons_cons, ← hT]
        exact step2.2.2.1
      · simp only [List.length_cons, step2.2.2.2.1]
      · refine List.chain'_cons'.2 ⟨?_, step2.2.2.2.2⟩
        intro b hb
        rw [step2.2.1] at hb
        simp only [Option.mem_def, Option.some_inj] at hb
        subst hb
        exact ⟨rfl, Or.inl rfl⟩

/-! ## Assembling the rasterizer specification -/

theorem xstep_adj8 (p q : Int × Int)
    (h : q.1 = p.1 + 1 ∧ (q.2 = p.2 ∨ q.2 = p.2 + 1)) : adj8 p q := by
  obtain ⟨h1, h2⟩ := h
  refine ⟨?_, ?_⟩
  · rw [h1, add_sub_cancel_left]; norm_num
  · rcases h2 with h2 | h2
    · rw [h2, sub_self]; norm_num
    · rw [h2, add_sub_cancel_left]; norm_num

theorem ystep_adj8 (p q : Int × Int)
    (h : q.2 = p.2 + 1 ∧ (q.1 = p.1 ∨ q.1 = p.1 + 1)) : adj8 p q := by
  obtain ⟨h1, h2⟩ := h
  refine ⟨?_, ?_⟩
  · rcases h2 with h2 | h2
    · rw [h2, sub_self]; norm_num
    · rw [h2, add_sub_cancel_left]; norm_num
  · rw [h1, add_sub_cancel_left]; norm_num

theorem adj8_negx (p q : Int × Int) (h : adj8 p q) :
    adj8 (-p.1, p.2) (-q.1, q.2) := by
  obtain ⟨h1, h2⟩ := h
  refine ⟨?_, h2⟩
  rw [show -q.1 - -p.1 = -(q.1 - p.1) from by ring, abs_neg]
  exact h1

theorem adj8_negy (p q : Int × Int) (h : adj8 p q) :
    adj8 (p.1, -p.2) (q.1, -q.2) := by
  obtain ⟨h1, h2⟩ := h
  refine ⟨h1, ?_⟩
  rw [show -q.2 - -p.2 = -(q.2 - p.2) from by ring, abs_neg]
  exact h2

theorem adj8_shift (tx ty : Int) (p q : Int × Int) (h : adj8 p q) :
    adj8 (p.1 + tx, p.2 + ty) (q.1 + tx, q.2 + ty) := by
  obtain ⟨h1, h2⟩ := h
  refine ⟨?_, ?_⟩
  · rw [show q.1 + tx - (p.1 + tx) = q.1 - p.1 from by ring]; exact h1
  · rw [show q.2 + ty - (p.2 + ty) = q.2 - p.2 from by ring]; exact h2

theorem specMap (f : Int × Int → Int × Int)
    (hf : ∀ p q, adj8 p q → adj8 (f p) (f q))
    (l l' : List (Int × Int)) (a b : Int × Int) (n : Nat)
    (h : l = l' ∧ l.head? = some a ∧ l.getLast? = some b ∧ l.length = n ∧
      List.Chain' adj8 l) :
    l.map f = l'.map f ∧ (l.map f).head? = some (f a) ∧
    (l.map f).getLast? = some (f b) ∧ (l.map f).length = n ∧
    List.Chain' adj8 (l.map f) := by
  obtain ⟨h1, h2, h3, h4, h5⟩ := h
  refine ⟨by rw [h1], ?_, ?_, ?_, ?_⟩
  · rw [List.head?_map, h2]; rfl
  · rw [List.getLast?_map, h3]; rfl
  · rw [List.length_map, h4]
  · exact (List.chain'_map f).2 (h5.imp hf)

theorem bres_general_translate (x0 y0 x1 y1 : Int) (fuel : Nat) :
    bres x1 y1 |x1 - x0| (-|y1 - y0|) (if x0 < x1 then (1 : Int) else -1)
      (if y0 < y1 then (1 : Int) else -1) fuel x0 y0 (|x1 - x0| + -|y1 - y0|)
      = (bresFrom0 (x1 - x0) (y1 - y0) fuel).map (fun p => (p.1 + x0, p.2 + y0)) := by
  have key := bres_translate (x1 - x0) (y1 - y0) |x1 - x0| (-|y1 - y0|)
    (if (0 : Int) < x1 - x0 then (1 : Int) else -1)
    (if (0 : Int) < y1 - y0 then (1 : Int) else -1)
    x0 y0 fuel 0 0 (|x1 - x0| + -|y1 - y0|)
  rw [show x1 - x0 + x0 = x1 from by ring, show y1 - y0 + y0 = y1 from by ring,
    show (0 : Int) + x0 = x0 from by ring, show (0 : Int) + y0 = y0 from by ring] at key
  simp only [sub_pos] at key
  simp only [bresFrom0, sub_pos]
  exact key

theorem bresFrom0_negx (a b : Int) (h : a < 0) (fuel : Nat) :
    bresFrom0 a b fuel = (bresFrom0 (-a) b fuel).map (fun p => (-p.1, p.2)) := by
  have key := bres_negx (-a) b |a| (-|b|) 1 (if (0 : Int) < b then (1 : Int) else -1)
    fuel 0 0 (|a| + -|b|)
  rw [neg_neg, neg_zero] at key
  simp only [bresFrom0, abs_neg]
  rw [if_neg (by omega : ¬ (0 : Int) < a), if_pos (by omega : (0 : Int) < -a)]
  exact key

theorem bresFrom0_negy (a b : Int) (h : b < 0) (fuel : Nat) :
    bresFrom0 a b fuel = (bresFrom0 a (-b) fuel).map (fun p => (p.1, -p.2)) := by
  have key := bres_negy a (-b) |a| (-|b|) (if (0 : Int) < a then (1 : Int) else -1) 1
    fuel 0 0 (|a| + -|b|)
  rw [neg_neg, neg_zero] at key
  simp only [bresFrom0, abs_neg]
  rw [if_neg (by omega : ¬ (0 : Int) < b), if_pos (by omega : (0 : Int) < -b)]
  exact key

theorem bresFrom0_spec_nn (D E : Int) (hD : 0 ≤ D) (hE : 0 ≤ E)
    (fuel fuel' : Nat) (hf : (max D E).toNat < fuel) (hf' : (max D E).toNat < fuel') :
    bresFrom0 D E fuel = bresFrom0 D E fuel' ∧
    (bresFrom0 D E fuel).head? = some (0, 0) ∧
    (bresFrom0 D E fuel).getLast? = some (D, E) ∧
    (bresFrom0 D E fuel).length = (max D E).toNat + 1 ∧
    List.Chain' adj8 (bresFrom0 D E fuel) := by
  by_cases hdeg : D = 0 ∧ E = 0
  · obtain ⟨h1, h2⟩ := hdeg
    subst h1
    subst h2
    obtain ⟨m, rfl⟩ : ∃ m, fuel = m + 1 := ⟨fuel - 1, by omega⟩
    obtain ⟨m', rfl⟩ : ∃ m, fuel' = m + 1 := ⟨fuel' - 1, by omega⟩
    have hval : ∀ mm : Nat, bresFrom0 0 0 (mm + 1) = [(0, 0)] := by
      intro mm
      simp [bresFrom0, bres_succ]
    rw [hval, hval]
    exact ⟨rfl, rfl, rfl, by decide, List.chain'_singleton _⟩
  · rcases le_or_lt E D with hED | hED
    · -- x-dominant
      have hD0 : 0 < D := by omega
      have hmax : max D E = D := max_eq_left hED
      have hf2 : D.toNat < fuel := by rw [hmax] at hf; exact hf
      have hf2' : D.toNat < fuel' := by rw [hmax] at hf'; exact hf'
      have hsy : 0 < E → (if (0 : Int) < E then (1 : Int) else -1) = 1 :=
        fun h => if_pos h
      have hunf : ∀ ff : Nat, bresFrom0 D E ff
          = bres D E D (-E) 1 (if (0 : Int) < E then (1 : Int) else -1) ff 0 0
            (D + -E) := by
        intro ff
        simp only [bresFrom0, abs_of_nonneg hD, abs_of_nonneg hE, if_pos hD0]
      have m1 := bres_xdom D E (if (0 : Int) < E then (1 : Int) else -1) hD0 hE hED hsy
        D.toNat 0 0 (D + -E) (by simp [Int.toNat_of_nonneg hD]) le_rfl le_rfl hE
        (by ring) (by omega) fuel hf2
      have m2 := bres_xdom D E (if (0 : Int) < E then (1 : Int) else -1) hD0 hE hED hsy
        D.toNat 0 0 (D + -E) (by simp [Int.toNat_of_nonneg hD]) le_rfl le_rfl hE
        (by ring) (by omega) fuel' hf2'
      rw [hunf fuel, hunf fuel', m1.1, m2.1]
      refine ⟨rfl, m1.2.1, m1.2.2.1, ?_, ?_⟩
      · rw [m1.2.2.2.1, hmax]
      · exact m1.2.2.2.2.imp xstep_adj8
    · -- y-dominant
      have hE0 : 0 < E := by omega
      have hDE : D ≤ E := le_of_lt hED
      have hmax : max D E = E := max_eq_right hDE
      have hf2 : E.toNat < fuel := by rw [hmax] at hf; exact hf
      have hf2' : E.toNat < fuel' := by rw [hmax] at hf'; exact hf'
      have hsx : 0 < D → (if (0 : Int) < D then (1 : Int) else -1) = 1 :=
        fun h => if_pos h
      have hunf : ∀ ff : Nat, bresFrom0 D E ff
          = bres D E D (-E) (if (0 : Int) < D then (1 : Int) else -1) 1 ff 0 0
            (D + -E) := by
        intro ff
        simp only [bresFrom0, abs_of_nonneg hD, abs_of_nonneg hE, if_pos hE0]
      have m1 := bres_ydom D E (if (0 : Int) < D then (1 : Int) else -1) hE0 hD hDE hsx
        E.toNat 0 0 (D + -E) (by simp [Int.toNat_of_nonneg hE]) le_rfl le_rfl hD
        (by ring) (by omega) fuel hf2
      have m2 := bres_ydom D E (if (0 : Int) < D then (1 : Int) else -1) hE0 hD hDE hsx
        E.toNat 0 0 (D + -E) (by simp [Int.toNat_of_nonneg hE]) le_rfl le_rfl hD
        (by ring) (by omega) fuel' hf2'
      rw [hunf fuel, hunf fuel', m1.1, m2.1]
      refine ⟨rfl, m1.2.1, m1.2.2.1, ?_, ?_⟩
      · rw [m1.2.2.2.1, hmax]
      · exact m1.2.2.2.2.imp ystep_adj8

theorem bresFrom0_spec_ynn (Dx Dy : Int) (hDy : 0 ≤ Dy)
    (fuel fuel' : Nat) (hf : (max |Dx| |Dy|).toNat < fuel)
    (hf' : (max |Dx| |Dy|).toNat < fuel') :
    bresFrom0 Dx Dy fuel = bresFrom0 Dx Dy fuel' ∧
    (bresFrom0 Dx Dy fuel).head? = some (0, 0) ∧
    (bresFrom0 Dx Dy fuel).getLast? = some (Dx, Dy) ∧
    (bresFrom0 Dx Dy fuel).length = (max |Dx| |Dy|).toNat + 1 ∧
    List.Chain' adj8 (bresFrom0 Dx Dy fuel) := by
  rcases le_or_lt 0 Dx with hDx | hDx
  · have h := bresFrom0_spec_nn Dx Dy hDx hDy fuel fuel'
      (by rwa [abs_of_nonneg hDx, abs_of_nonneg hDy] at hf)
      (by rwa [abs_of_nonneg hDx, abs_of_nonneg hDy] at hf')
    rw [abs_of_nonneg hDx, abs_of_nonneg hDy]
    exact h
  · have hbound : (max |(-Dx)| |Dy|).toNat = (max |Dx| |Dy|).toNat := by
      rw [abs_neg]
    have h := bresFrom0_spec_nn (-Dx) Dy (by omega) hDy fuel fuel'
      (by rw [abs_of_neg hDx, abs_of_nonneg hDy] at hf; exact hf)
      (by rw [abs_of_neg hDx, abs_of_nonneg hDy] at hf'; exact hf')
    have hmapped := specMap (fun p => (-p.1, p.2))
      (fun p q hpq => adj8_negx p q hpq)
      (bresFrom0 (-Dx) Dy fuel) (bresFrom0 (-Dx) Dy fuel') (0, 0) (-Dx, Dy)
      ((max (-Dx) Dy).toNat + 1) h
    rw [bresFrom0_negx Dx Dy hDx fuel, bresFrom0_negx Dx Dy hDx fuel']
    refine ⟨hmapped.1, ?_, ?_, ?_, hmapped.2.2.2.2⟩
    · rw [hmapped.2.1]; simp
    · rw [hmapped.2.2.1]; simp
    · rw [abs_of_neg hDx, abs_of_nonneg hDy]
      exact hmapped.2.2.2.1

theorem bresFrom0_spec (Dx Dy : Int)
    (fuel fuel' : Nat) (hf : (max |Dx| |Dy|).toNat < fuel)
    (hf' : (max |Dx| |Dy|).toNat < fuel') :
    bresFrom0 Dx Dy fuel = bresFrom0 Dx Dy fuel' ∧
    (bresFrom0 Dx Dy fuel).head? = some (0, 0) ∧
    (bresFrom0 Dx Dy fuel).getLast? = some (Dx, Dy) ∧
    (bresFrom0 Dx Dy fuel).length = (max |Dx| |Dy|).toNat + 1 ∧
    List.Chain' adj8 (bresFrom0 Dx Dy fuel) := by
  rcases le_or_lt 0 Dy with hDy | hDy
  · exact bresFrom0_spec_ynn Dx Dy hDy fuel fuel' hf hf'
  · have habs : |(-Dy)| = |Dy| := abs_neg Dy
    have h := bresFrom0_spec_ynn Dx (-Dy) (by omega) fuel fuel'
      (by rwa [habs]) (by rwa [habs])
    have hmapped := specMap (fun p => (p.1, -p.2))
      (fun p q hpq => adj8_negy p q hpq)
      (bresFrom0 Dx (-Dy) fuel) (bresFrom0 Dx (-Dy) fuel') (0, 0) (Dx, -Dy)
      ((max |Dx| |(-Dy)|).toNat + 1) h
    rw [bresFrom0_negy Dx Dy hDy fuel, bresFrom0_negy Dx Dy hDy fuel']
    refine ⟨hmapped.1, ?_, ?_, ?_, hmapped.2.2.2.2⟩
    · rw [hmapped.2.1]; simp
    · rw [hmapped.2.2.1]; simp
    · rw [← habs]
      exact hmapped.2.2.2.1

theorem maxAbs_lt_fuel (a b : Int) : (max |a| |b|).toNat < (|a| + |b|).toNat + 1 := by
  have h1 : max |a| |b| ≤ |a| + |b| :=
    max_le (le_add_of_nonneg_right (abs_nonneg _)) (le_add_of_nonneg_left (abs_nonneg _))
  exact Nat.lt_succ_of_le (Int.toNat_le_toNat h1)

theorem plotLine_eq_map (x0 y0 x1 y1 : Int) :
    plotLine x0 y0 x1 y1
      = (bresFrom0 (x1 - x0) (y1 - y0) ((|x1 - x0| + |y1 - y0|).toNat + 1)).map
          (fun p => (p.1 + x0, p.2 + y0)) := by
  simp only [plotLine]
  exact bres_general_translate x0 y0 x1 y1 ((|x1 - x0| + |y1 - y0|).toNat + 1)

theorem plotLine_path (x0 y0 x1 y1 : Int) :
    (plotLine x0 y0 x1 y1).head? = some (x0, y0) ∧
    (plotLine x0 y0 x1 y1).getLast? = some (x1, y1) ∧
    (plotLine x0 y0 x1 y1).length = (max |x1 - x0| |y1 - y0|).toNat + 1 ∧
    List.Chain' adj8 (plotLine x0 y0 x1 y1) := by
  have hb := maxAbs_lt_fuel (x1 - x0) (y1 - y0)
  have h := bresFrom0_spec (x1 - x0) (y1 - y0)
    ((|x1 - x0| + |y1 - y0|).toNat + 1) ((|x1 - x0| + |y1 - y0|).toNat + 1) hb hb
  have hmapped := specMap (fun p => (p.1 + x0, p.2 + y0))
    (fun p q hpq => adj8_shift x0 y0 p q hpq)
    _ _ (0, 0) (x1 - x0, y1 - y0) ((max |x1 - x0| |y1 - y0|).toNat + 1) h
  rw [plotLine_eq_map]
  refine ⟨?_, ?_, hmapped.2.2.2.1, hmapped.2.2.2.2⟩
  · rw [hmapped.2.1]
    simp only [Option.some_inj, Prod.mk.injEq]
    constructor <;> ring
  · rw [hmapped.2.2.1]
    simp only [Option.some_inj, Prod.mk.injEq]
    constructor <;> ring

theorem eq_singleton_of_head_len (l : List (Int × Int)) (a : Int × Int)
    (h1 : l.head? = some a) (h2 : l.length = 1) : l = [a] := by
  cases l with
  | nil => exact absurd h1 (by simp)
  | cons b t =>
    simp only [List.head?_cons, Option.some_inj] at h1
    simp only [List.length_cons, Nat.add_left_cancel_iff] at h2
    have ht : t = [] := List.eq_nil_of_length_eq_zero (by omega)
    rw [h1, ht]

/-- C1: for valid grid coordinates, the cells touched by plotLine (in
changeCellColor call order) start at (x0,y0), end at (x1,y1), every
consecutive pair is 8-adjacent (differs by at most 1 per axis), the length
is at most max(|x1-x0|,|y1-y0|)+1, and plotLine(x,y,x,y) touches exactly
the one cell (x,y). -/
theorem C1_plotLine_path_endpoints (d x0 y0 x1 y1 : Int) (hd : 0 < d)
    (hx0 : 0 ≤ x0) (hx0d : x0 < d) (hy0 : 0 ≤ y0) (hy0d : y0 < d)
    (hx1 : 0 ≤ x1) (hx1d : x1 < d) (hy1 : 0 ≤ y1) (hy1d : y1 < d) :
    (plotLine x0 y0 x1 y1).head? = some (x0, y0) ∧
    (plotLine x0 y0 x1 y1).getLast? = some (x1, y1) ∧
    List.Chain' adj8 (plotLine x0 y0 x1 y1) ∧
    (plotLine x0 y0 x1 y1).length ≤ (max |x1 - x0| |y1 - y0|).toNat + 1 ∧
    plotLine x0 y0 x0 y0 = [(x0, y0)] := by
  obtain ⟨h1, h2, h3, h4⟩ := plotLine_path x0 y0 x1 y1
  refine ⟨h1, h2, h4, le_of_eq h3, ?_⟩
  obtain ⟨g1, _, g3, _⟩ := plotLine_path x0 y0 x0 y0
  refine eq_singleton_of_head_len _ _ g1 ?_
  rw [g3]
  norm_num

theorem C1_plotLine_path_endpoints_witness :
    ((0 : Int) < 16 ∧ (0 : Int) ≤ 1 ∧ (1 : Int) < 16) ∧
    ((plotLine 1 2 5 4).head? = some (1, 2) ∧
      (plotLine 1 2 5 4).getLast? = some (5, 4) ∧
      List.Chain' adj8 (plotLine 1 2 5 4) ∧
      (plotLine 1 2 5 4).length ≤ (max |(5 : Int) - 1| |(4 : Int) - 2|).toNat + 1 ∧
      plotLine 1 2 1 2 = [(1, 2)]) :=
  ⟨⟨by decide, by decide, by decide⟩,
    C1_plotLine_path_endpoints 16 1 2 5 4 (by decide) (by decide) (by decide)
      (by decide) (by decide) (by decide) (by decide) (by decide) (by decide)⟩

/-- C2: for every four integer arguments, the while(true) loop of plotLine
terminates — running it with any extra fuel beyond |dx|+|dy|+1 iterations
produces the same finite list — and it emits at most
max(|x1-x0|,|y1-y0|)+1 cells. -/
theorem C2_plotLine_loop_terminates (x0 y0 x1 y1 : Int) (extra : Nat) :
    bres x1 y1 |x1 - x0| (-|y1 - y0|) (if x0 < x1 then (1 : Int) else -1)
      (if y0 < y1 then (1 : Int) else -1)
      ((|x1 - x0| + |y1 - y0|).toNat + 1 + extra) x0 y0
      (|x1 - x0| + -|y1 - y0|) = plotLine x0 y0 x1 y1 ∧
    (plotLine x0 y0 x1 y1).length ≤ (max |x1 - x0| |y1 - y0|).toNat + 1 := by
  constructor
  · rw [bres_general_translate x0 y0 x1 y1 ((|x1 - x0| + |y1 - y0|).toNat + 1 + extra),
      plotLine_eq_map]
    have hb := maxAbs_lt_fuel (x1 - x0) (y1 - y0)
    have hstable := (bresFrom0_spec (x1 - x0) (y1 - y0)
      ((|x1 - x0| + |y1 - y0|).toNat + 1 + extra)
      ((|x1 - x0| + |y1 - y0|).toNat + 1) (by omega) hb).1
    rw [hstable]
  · exact le_of_eq (plotLine_path x0 y0 x1 y1).2.2.1

end Sketch
